import Mathlib

/-!
Verification of the multi-source search pipeline (scripts/search_v3.py).

The Python program is shallowly embedded: each pure computation on already
parsed data becomes a Lean function over an explicit model of the parsed
input.  Network transport (`run_curl`), JSON/XML/HTML parsing libraries and
thread scheduling are outside the embedded boundary: an adapter is modelled
as a function from the shape of its parsed response to the list of result
records it emits, exactly following the Python control flow.
-/

namespace ProWeb

/-- One normalized search record, the dict every adapter appends
(fields `rank, title, url, snippet, source, relevance, score`).
Python ints are `Nat`/`Int`.  The informational float `relevance` is only
ever stored by the program, never computed with, so it is carried exactly,
in hundredths (the source text's `0.95` is `95`). -/
structure SearchResult where
  rank : Nat
  title : String
  url : String
  snippet : String
  source : String
  relevance : Nat
  score : Int
deriving DecidableEq, Repr

/-- Python string slicing `s[:n]` on code points. -/
def strTake (s : String) (n : Nat) : String :=
  String.mk (s.data.take n)

/-- Python `str.lower()` (ASCII letters; the titles involved are ASCII). -/
def pyLower (s : String) : String :=
  String.mk (s.data.map Char.toLower)

/-- The near-duplicate title test of `deduplicate_results` (line 307-308):
case-folded lengths differ by less than 5 and the first 30 characters agree.
Both arguments are already lower-cased. -/
def titleDup (tl seen : String) : Bool :=
  (((tl.length : Int) - (seen.length : Int)).natAbs < 5) &&
    (tl.data.take 30 == seen.data.take 30)

/-- The loop of `deduplicate_results` (lines 294-318).  `seenUrls` models the
`seen_urls` set, `seenTitles` the keys of the `seen_titles` dict (membership
is all the dict is used for). -/
def dedupGo : List SearchResult → List String → List String → List SearchResult
  | [], _, _ => []
  | r :: rest, seenUrls, seenTitles =>
    if seenUrls.contains r.url then
      dedupGo rest seenUrls seenTitles
    else if r.title != "" && seenTitles.any (fun t => titleDup (pyLower r.title) t) then
      dedupGo rest seenUrls seenTitles
    else
      r :: dedupGo rest (r.url :: seenUrls)
        (if r.title == "" then seenTitles else pyLower r.title :: seenTitles)

/-- `deduplicate_results` (lines 288-320). -/
def deduplicate_results (all_results : List SearchResult) : List SearchResult :=
  dedupGo all_results [] []

theorem dedupGo_idem (l : List SearchResult) :
    ∀ U T, dedupGo (dedupGo l U T) U T = dedupGo l U T := by
  induction l with
  | nil => intro U T; rfl
  | cons r rest ih =>
    intro U T
    by_cases hu : r.url ∈ U
    · simp [dedupGo, hu, ih]
    · by_cases ht : ¬r.title = "" ∧ ∃ x ∈ T, titleDup (pyLower r.title) x = true
      · simp [dedupGo, hu, ht, ih]
      · simp [dedupGo, hu, ht, ih]

theorem mem_dedupGo_url (l : List SearchResult) :
    ∀ U T r, r ∈ dedupGo l U T → r.url ∉ U := by
  induction l with
  | nil => intro U T r h; simp [dedupGo] at h
  | cons s rest ih =>
    intro U T r h
    by_cases hu : s.url ∈ U
    · simp only [dedupGo] at h
      rw [if_pos (by simpa using hu)] at h
      exact ih U T r h
    · simp only [dedupGo] at h
      rw [if_neg (by simpa using hu)] at h
      by_cases ht : (s.title != "" && T.any (fun t => titleDup (pyLower s.title) t)) = true
      · rw [if_pos ht] at h
        exact ih U T r h
      · rw [if_neg ht] at h
        rcases List.mem_cons.mp h with rfl | h
        · exact hu
        · have := ih _ _ r h
          intro hr
          exact this (List.mem_cons_of_mem _ hr)

theorem dedupGo_pairwise_url (l : List SearchResult) :
    ∀ U T, (dedupGo l U T).Pairwise (fun a b => a.url ≠ b.url) := by
  induction l with
  | nil => intro U T; simp [dedupGo]
  | cons s rest ih =>
    intro U T
    by_cases hu : s.url ∈ U
    · simp only [dedupGo]
      rw [if_pos (by simpa using hu)]
      exact ih U T
    · simp only [dedupGo]
      rw [if_neg (by simpa using hu)]
      by_cases ht : (s.title != "" && T.any (fun t => titleDup (pyLower s.title) t)) = true
      · rw [if_pos ht]; exact ih U T
      · rw [if_neg ht]
        refine List.pairwise_cons.mpr ⟨?_, ih _ _⟩
        intro b hb
        have := mem_dedupGo_url rest _ _ b hb
        intro he
        exact this (by rw [← he]; exact List.mem_cons_self _ _)

theorem filter_url_len_le_one (m : List SearchResult) (u : String)
    (hp : m.Pairwise (fun a b => a.url ≠ b.url)) :
    (m.filter (fun r => r.url == u)).length ≤ 1 := by
  induction m with
  | nil => simp
  | cons r m ih =>
    rcases List.pairwise_cons.mp hp with ⟨hr, hm⟩
    by_cases hru : r.url = u
    · have hnil : m.filter (fun r => r.url == u) = [] := by
        refine List.eq_nil_iff_forall_not_mem.mpr ?_
        intro b hb
        rcases List.mem_filter.mp hb with ⟨hbm, hbu⟩
        exact hr b hbm (by rw [hru]; exact (eq_of_beq hbu).symm)
      simp [List.filter_cons, hru, hnil]
    · have hf : (r.url == u) = false := by simpa using hru
      simpa [List.filter_cons, hf] using ih hm

/-- C5: `deduplicate_results` is idempotent — running the deduplication pass a
second time over its own output changes nothing. -/
theorem C5_deduplicate_idempotent (X : List SearchResult) :
    deduplicate_results (deduplicate_results X) = deduplicate_results X :=
  dedupGo_idem X [] []

/-- C9: at most one result whose `url` is the empty string survives
`deduplicate_results` — an empty url is treated like any other url value by
the exact-match rule. -/
theorem C9_dedup_at_most_one_empty_url (l : List SearchResult) :
    ((deduplicate_results l).filter (fun r => r.url == "")).length ≤ 1 :=
  filter_url_len_le_one _ "" (dedupGo_pairwise_url l [] [])

/-- The two records of the C4 scenario: titles differing only by a trailing
exclamation mark, distinct urls. -/
def c4first : SearchResult :=
  ⟨1, "Intro to Graphs", "https://example.com/g1", "", "bing", 80, 80⟩

def c4second : SearchResult :=
  ⟨2, "Intro to Graphs!", "https://example.com/g2", "", "bing", 80, 80⟩

/-- C4 counterexample: `deduplicate_results` does NOT return only the first of
the two records — both case-folded titles are shorter than 30 characters, so
the 30-character prefixes are the full strings, which differ at the trailing
`!`; the near-duplicate test fails and the second record is kept. -/
theorem C4_counterexample : deduplicate_results [c4first, c4second] ≠ [c4first] := by
  decide

/-- C4 (amended): the two records of the scenario are NOT classified as
near-duplicates: although their case-folded lengths differ by 1 (within the
tolerance), their first-30-character prefixes are the whole strings and
differ, so `deduplicate_results` keeps both records in order. -/
theorem C4_both_records_kept :
    deduplicate_results [c4first, c4second] = [c4first, c4second] := by
  decide

/-- The per-result scoring pass of `rank_results` (lines 324-341): start from
the record's `score`, add 5 for a snippet longer than 100 characters, then a
source-authority bonus, and cap with `min(base_score, 100)`. -/
def applyBoost (r : SearchResult) : SearchResult :=
  let base0 := r.score
  let base1 := if 100 < r.snippet.length then base0 + 5 else base0
  let base2 :=
    if r.source = "wikipedia" then base1 + 20
    else if r.source = "duckduckgo-instant" then base1 + 15
    else if r.source = "arxiv" then base1 + 10
    else base1
  { r with score := min base2 100 }

/-- Stable insertion step for the descending sort: the inserted record goes in
front of the first already-placed record whose score is not larger.  On a
sorted list this puts an element after every strictly larger score and before
every equal or smaller one, exactly where Python's stable
`sorted(..., key=lambda x: x['score'], reverse=True)` places it. -/
def insertD (x : SearchResult) : List SearchResult → List SearchResult
  | [] => [x]
  | y :: l => if y.score ≤ x.score then x :: y :: l else y :: insertD x l

/-- Stable descending-by-score sort: insertion sort, which agrees with any
stable sort on the same key — the output of a stable sort is unique — and so
with Python's `sorted(..., reverse=True)` (line 344). -/
def sortDesc : List SearchResult → List SearchResult
  | [] => []
  | x :: xs => insertD x (sortDesc xs)

/-- `rank_results` (lines 322-344): boost every record's score, then sort by
score, descending and stable. -/
def rank_results (results : List SearchResult) : List SearchResult :=
  sortDesc (results.map applyBoost)

/-- The spec's wording of the scoring rule, for comparison with `applyBoost`:
baseline plus snippet bonus plus source-authority bonus, clamped at 100. -/
def specScore (r : SearchResult) : Int :=
  min (r.score + (if 100 < r.snippet.length then 5 else 0) +
    (if r.source = "wikipedia" then 20
     else if r.source = "duckduckgo-instant" then 15
     else if r.source = "arxiv" then 10
     else 0)) 100

/-- The spec's scoring rule applied to a whole record. -/
def specUpdate (r : SearchResult) : SearchResult :=
  { r with score := specScore r }

theorem applyBoost_eq_specUpdate (r : SearchResult) : applyBoost r = specUpdate r := by
  unfold applyBoost specUpdate specScore
  by_cases h1 : 100 < r.snippet.length <;>
    by_cases h2 : r.source = "wikipedia" <;>
      by_cases h3 : r.source = "duckduckgo-instant" <;>
        by_cases h4 : r.source = "arxiv" <;>
          simp [h1, h2, h3, h4, Int.add_assoc]

theorem mem_insertD {a x : SearchResult} {l : List SearchResult} :
    a ∈ insertD x l ↔ a = x ∨ a ∈ l := by
  induction l with
  | nil => simp [insertD]
  | cons y l ih =>
    by_cases h : y.score ≤ x.score
    · simp [insertD, h]
    · simp [insertD, h, ih]
      tauto

theorem insertD_perm (x : SearchResult) (l : List SearchResult) :
    List.Perm (insertD x l) (x :: l) := by
  induction l with
  | nil => simp [insertD]
  | cons y l ih =>
    by_cases h : y.score ≤ x.score
    · simp [insertD, h]
    · simp only [insertD, h, if_false]
      exact (ih.cons y).trans (List.Perm.swap x y l)

theorem sortDesc_perm (l : List SearchResult) : List.Perm (sortDesc l) l := by
  induction l with
  | nil => simp [sortDesc]
  | cons x xs ih => exact (insertD_perm x (sortDesc xs)).trans (ih.cons x)

theorem insertD_sorted (x : SearchResult) (l : List SearchResult)
    (h : l.Pairwise (fun a b => b.score ≤ a.score)) :
    (insertD x l).Pairwise (fun a b => b.score ≤ a.score) := by
  induction l with
  | nil => simp [insertD]
  | cons y l ih =>
    rcases List.pairwise_cons.mp h with ⟨hy, hl⟩
    by_cases hxy : y.score ≤ x.score
    · simp only [insertD, hxy, if_true]
      refine List.pairwise_cons.mpr ⟨?_, h⟩
      intro b hb
      rcases List.mem_cons.mp hb with rfl | hb
      · exact hxy
      · exact le_trans (hy b hb) hxy
    · simp only [insertD, hxy, if_false]
      refine List.pairwise_cons.mpr ⟨?_, ih hl⟩
      intro b hb
      rcases mem_insertD.mp hb with rfl | hb
      · exact le_of_lt (lt_of_not_le hxy)
      · exact hy b hb

theorem sortDesc_sorted (l : List SearchResult) :
    (sortDesc l).Pairwise (fun a b => b.score ≤ a.score) := by
  induction l with
  | nil => simp [sortDesc]
  | cons x xs ih => exact insertD_sorted x (sortDesc xs) ih

theorem filter_insertD (x : SearchResult) (l : List SearchResult) (s : Int) :
    (insertD x l).filter (fun r => r.score == s) =
      if x.score = s then x :: l.filter (fun r => r.score == s)
      else l.filter (fun r => r.score == s) := by
  induction l with
  | nil => by_cases hx : x.score = s <;> simp [insertD, hx]
  | cons y l ih =>
    by_cases hxy : y.score ≤ x.score
    · simp only [insertD, hxy, if_true]
      by_cases hx : x.score = s
      · rw [if_pos hx]
        simp [List.filter_cons, hx]
      · rw [if_neg hx]
        simp [List.filter_cons, hx]
    · simp only [insertD, hxy, if_false]
      have hyx : x.score < y.score := lt_of_not_le hxy
      by_cases hx : x.score = s
      · have hy : ¬y.score = s := by
          intro h
          rw [h, ← hx] at hyx
          exact lt_irrefl _ hyx
        rw [if_pos hx]
        simp [List.filter_cons, hy, ih, hx]
      · rw [if_neg hx]
        by_cases hy : y.score = s <;>
          simp [List.filter_cons, hy, ih, hx]

theorem sortDesc_filter_score (l : List SearchResult) (s : Int) :
    (sortDesc l).filter (fun r => r.score == s) = l.filter (fun r => r.score == s) := by
  induction l with
  | nil => rfl
  | cons x xs ih =>
    by_cases hx : x.score = s <;>
      simp [sortDesc, filter_insertD, hx, List.filter_cons, ih]

/-- C6: the output of `rank_results` is sorted in non-increasing score order,
and it is stable: for every score value, the sub-sequence of output records
carrying that final score is exactly the sub-sequence of (boosted) input
records carrying it, in input order. -/
theorem C6_rank_sorted_and_stable (results : List SearchResult) :
    (rank_results results).Pairwise (fun a b => b.score ≤ a.score) ∧
      ∀ s : Int, (rank_results results).filter (fun r => r.score == s) =
        (results.map applyBoost).filter (fun r => r.score == s) :=
  ⟨sortDesc_sorted _, fun s => sortDesc_filter_score _ s⟩

theorem specScore_bounds (r : SearchResult) (h : 0 ≤ r.score) :
    0 ≤ specScore r ∧ specScore r ≤ 100 := by
  unfold specScore
  constructor
  · refine le_min ?_ (by norm_num)
    have h1 : (0 : Int) ≤ if 100 < r.snippet.length then 5 else 0 := by
      split <;> norm_num
    have h2 : (0 : Int) ≤
        if r.source = "wikipedia" then 20
        else if r.source = "duckduckgo-instant" then 15
        else if r.source = "arxiv" then 10
        else 0 := by
      split_ifs <;> norm_num
    linarith
  · exact min_le_right _ _

/-- C7 (amended): whenever every incoming score is non-negative — which holds
for every record the adapters build, their baselines being 70..95 — every
score after `rank_results` lies in [0,100]; and the scoring rule is exactly
the spec's: baseline, +5 for a snippet over 100 characters, +20/+15/+10
source bonus, capped at 100.  The cap is one-sided (`min(base_score, 100)`),
so the non-negativity assumption cannot be dropped (see the counterexample). -/
theorem C7_rank_scores_bounded (results : List SearchResult)
    (h : ∀ r ∈ results, 0 ≤ r.score) :
    (∀ r ∈ rank_results results, 0 ≤ r.score ∧ r.score ≤ 100) ∧
      List.Perm (rank_results results) (results.map specUpdate) := by
  have hperm : List.Perm (rank_results results) (results.map specUpdate) := by
    have h1 : List.Perm (rank_results results) (results.map applyBoost) := sortDesc_perm _
    have h2 : results.map applyBoost = results.map specUpdate :=
      List.map_congr_left fun r _ => applyBoost_eq_specUpdate r
    rwa [h2] at h1
  refine ⟨?_, hperm⟩
  intro r hr
  have hr' : r ∈ results.map specUpdate := hperm.mem_iff.mp hr
  rcases List.mem_map.mp hr' with ⟨r0, hr0, rfl⟩
  exact specScore_bounds r0 (h r0 hr0)

/-- The record showing the missing lower clamp: an incoming score of -1. -/
def c7neg : SearchResult := ⟨1, "title", "https://example.com/n", "", "bing", 80, -1⟩

/-- C7 counterexample: `rank_results` does not clamp from below — on a record
arriving with score -1 (no bonuses apply), the final score is
`min(-1, 100) = -1`, outside [0,100], so the claim quantified over every
input list is false. -/
theorem C7_counterexample :
    ¬ (∀ r ∈ rank_results [c7neg], 0 ≤ r.score ∧ r.score ≤ 100) := by
  decide

/-- A wikipedia record with baseline 85: final score min(85+20,100) = 100. -/
def c7wiki : SearchResult :=
  ⟨0, "Graph theory", "https://en.wikipedia.org/wiki/Graph_theory",
    "In mathematics graph theory is the study of graphs", "wikipedia", 85, 85⟩

theorem C7_witness :
    (∀ r ∈ rank_results [c7wiki], 0 ≤ r.score ∧ r.score ≤ 100) ∧
      List.Perm (rank_results [c7wiki]) ([c7wiki].map specUpdate) :=
  C7_rank_scores_bounded [c7wiki] (by decide)

/-- A search record without its mutable `score` field: everything `rank_results`
must leave unchanged. -/
structure SearchResultCore where
  rank : Nat
  title : String
  url : String
  snippet : String
  source : String
  relevance : Nat
deriving DecidableEq, Repr

def dropScore (r : SearchResult) : SearchResultCore :=
  ⟨r.rank, r.title, r.url, r.snippet, r.source, r.relevance⟩

/-- C10: `rank_results` neither adds nor removes records, and changes nothing
but `score`: forgetting the score field, the output is a permutation of the
input. -/
theorem C10_rank_is_permutation_preserving_fields (results : List SearchResult) :
    List.Perm ((rank_results results).map dropScore) (results.map dropScore) := by
  have h2 := (sortDesc_perm (results.map applyBoost)).map dropScore
  rw [List.map_map] at h2
  have he : dropScore ∘ applyBoost = dropScore := by
    funext r; rfl
  rw [he] at h2
  exact h2

/-- The structured document `multi_source_search` returns (lines 503-510). -/
structure SearchOutput where
  query : String
  sources : List String
  count : Nat
  results : List SearchResult
  total_combined : Nat
  total_deduplicated : Nat
deriving Repr

/-- `multi_source_search` (lines 464-510) downstream of the concurrent
aggregation: lines 469-494 collect each adapter's records into `all_results`
in an order the scheduler determines, so the merged list is taken as the
explicit input here; deduplication, ranking, truncation and the three
counters follow lines 496-510 verbatim. -/
def multi_source_search (query : String) (sources : List String)
    (all_results : List SearchResult) (count : Nat) : SearchOutput :=
  let deduplicated := deduplicate_results all_results
  let ranked := rank_results deduplicated
  { query := query
    sources := sources
    count := ranked.length
    results := ranked.take count
    total_combined := all_results.length
    total_deduplicated := deduplicated.length }

theorem length_rank_results (l : List SearchResult) :
    (rank_results l).length = l.length := by
  have h := (sortDesc_perm (l.map applyBoost)).length_eq
  simpa [rank_results] using h

/-- C2 (amended): `total_combined` and `total_deduplicated` are as claimed,
but the `count` field equals the number of deduplicated results — the length
of `ranked` before truncation — not the length of the truncated `results`
list, which is `min(requested, deduplicated)`. -/
theorem C2_output_counters (query : String) (sources : List String)
    (all_results : List SearchResult) (count : Nat) :
    (multi_source_search query sources all_results count).total_combined
        = all_results.length ∧
      (multi_source_search query sources all_results count).total_deduplicated
        = (deduplicate_results all_results).length ∧
      (multi_source_search query sources all_results count).count
        = (deduplicate_results all_results).length ∧
      (multi_source_search query sources all_results count).results.length
        = min count (deduplicate_results all_results).length := by
  refine ⟨rfl, rfl, length_rank_results _, ?_⟩
  simp [multi_source_search, List.length_take, length_rank_results]

def c2a : SearchResult := ⟨1, "alpha", "https://example.com/a", "", "bing", 80, 80⟩

def c2b : SearchResult := ⟨2, "bravo sierra", "https://example.com/b", "", "bing", 80, 80⟩

/-- C2 counterexample: with two surviving results and a requested count of 1,
the returned document has `count = 2` while its `results` list holds 1 record
— the `count` field is the pre-truncation length, not the returned length. -/
theorem C2_counterexample :
    ¬ ((multi_source_search "q" ["bing"] [c2a, c2b] 1).count =
        (multi_source_search "q" ["bing"] [c2a, c2b] 1).results.length) := by
  decide

/-- One entry of the parsed `RelatedTopics` array: either a JSON object (its
`Text` / `FirstURL` fields with `dict.get` defaults already applied), or a
non-object entry such as a topic group, which `isinstance(topic, dict)`
rejects. -/
inductive DDGTopicEntry where
  | dict (text firstURL : String)
  | other
deriving DecidableEq, Repr

/-- The parsed instant-answer JSON document as `search_duckduckgo` reads it.
`heading` and `abstractURL` are `none` when the key is absent — `data.get`
then substitutes the query resp. the empty string — and `some s` (possibly
empty) when present. -/
structure DDGResponse where
  abstractText : String
  heading : Option String
  abstractURL : Option String
  relatedTopics : List DDGTopicEntry
deriving Repr

/-- The title of a related-topic record (line 85, the second of the two
`title` keys in the dict literal, which in Python overwrites the first):
`text.split(' - ')[0]` when `' - '` occurs in the text, else `text[:60]`. -/
def ddgTitle (text : String) : String :=
  match text.splitOn " - " with
  | p :: _ :: _ => p
  | _ => strTake text 60

/-- The abstract record (lines 59-69), emitted when `AbstractText` is a
non-empty string. -/
def ddgInit (query : String) (resp : DDGResponse) : List SearchResult :=
  if resp.abstractText != "" then
    [⟨1, resp.heading.getD query, resp.abstractURL.getD "",
      strTake resp.abstractText 500, "duckduckgo-instant", 95, 95⟩]
  else []

/-- The related-topics loop (lines 72-91): stop as soon as `count` records
are collected; skip non-dict entries; keep an entry only when its text and
URL are non-empty and the text is longer than 5 characters.  `rank` always
equals the number of records already collected plus one. -/
def ddgLoop : List DDGTopicEntry → List SearchResult → Nat → List SearchResult
  | [], acc, _ => acc
  | e :: rest, acc, count =>
    if count ≤ acc.length then acc
    else
      match e with
      | .other => ddgLoop rest acc count
      | .dict text firstURL =>
        if text != "" && firstURL != "" && 5 < text.length then
          ddgLoop rest
            (acc ++ [⟨acc.length + 1, ddgTitle text, firstURL,
              strTake text 500, "duckduckgo-related", 75, 75⟩]) count
        else ddgLoop rest acc count

/-- `search_duckduckgo` (lines 39-95) after JSON parsing: abstract record,
related-topics loop, final `results[:count]` slice. -/
def search_duckduckgo (query : String) (resp : DDGResponse) (count : Nat) :
    List SearchResult :=
  (ddgLoop resp.relatedTopics (ddgInit query resp) count).take count

set_option maxRecDepth 8192 in
theorem mem_ddgLoop (l : List DDGTopicEntry) :
    ∀ acc count r, r ∈ ddgLoop l acc count →
      r ∈ acc ∨ (r.source = "duckduckgo-related" ∧ r.url ≠ "" ∧ 5 < r.snippet.length) := by
  induction l with
  | nil => intro acc count r h; exact Or.inl h
  | cons e rest ih =>
    intro acc count r h
    by_cases hc : count ≤ acc.length
    · simp only [ddgLoop] at h
      rw [if_pos hc] at h
      exact Or.inl h
    · simp only [ddgLoop] at h
      rw [if_neg hc] at h
      cases e with
      | other => exact ih _ _ r h
      | dict text firstURL =>
        dsimp only at h
        by_cases hk : (text != "" && firstURL != "" && 5 < text.length) = true
        · rw [if_pos hk] at h
          rcases ih _ _ r h with hin | hrel
          · rcases List.mem_append.mp hin with hin | hnew
            · exact Or.inl hin
            · rcases List.mem_singleton.mp hnew with rfl
              simp only [Bool.and_eq_true, bne_iff_ne, ne_eq, decide_eq_true_eq] at hk
              obtain ⟨⟨htext, hurl⟩, h5⟩ := hk
              refine Or.inr ⟨rfl, hurl, ?_⟩
              have hlen : (strTake text 500).length = min 500 text.length := by
                show (text.data.take 500).length = min 500 text.data.length
                exact List.length_take 500 text.data
              dsimp only
              rw [hlen]
              omega
          · exact Or.inr hrel
        · rw [if_neg hk] at h
          exact ih _ _ r h

theorem countP_ddgLoop_instant (l : List DDGTopicEntry) :
    ∀ acc count,
      (ddgLoop l acc count).countP (fun r => r.source == "duckduckgo-instant") =
        acc.countP (fun r => r.source == "duckduckgo-instant") := by
  induction l with
  | nil => intro acc count; rfl
  | cons e rest ih =>
    intro acc count
    by_cases hc : count ≤ acc.length
    · simp only [ddgLoop]
      rw [if_pos hc]
    · simp only [ddgLoop]
      rw [if_neg hc]
      cases e with
      | other => exact ih _ _
      | dict text firstURL =>
        dsimp only
        by_cases hk : (text != "" && firstURL != "" && 5 < text.length) = true
        · rw [if_pos hk, ih, List.countP_append]
          simp [List.countP_cons]
        · rw [if_neg hk]
          exact ih _ _

/-- C8: for every parsed instant-answer response and requested count, the
duckduckgo adapter emits at most one instant-answer (abstract) record, stops
at the desired count, and every related-topic record it emits came from a
topic with a non-empty URL and more than 5 characters of text (so its url is
non-empty and its snippet longer than 5 characters). -/
theorem C8_duckduckgo_emission (query : String) (resp : DDGResponse) (count : Nat) :
    (search_duckduckgo query resp count).countP
        (fun r => r.source == "duckduckgo-instant") ≤ 1 ∧
      (search_duckduckgo query resp count).length ≤ count ∧
      ∀ r ∈ search_duckduckgo query resp count,
        r.source = "duckduckgo-related" → r.url ≠ "" ∧ 5 < r.snippet.length := by
  refine ⟨?_, ?_, ?_⟩
  · have hsub := (List.take_sublist count (ddgLoop resp.relatedTopics (ddgInit query resp) count)).countP_le
      (p := fun r => r.source == "duckduckgo-instant")
    refine le_trans hsub ?_
    rw [countP_ddgLoop_instant]
    calc (ddgInit query resp).countP (fun r => r.source == "duckduckgo-instant")
        ≤ (ddgInit query resp).length := List.countP_le_length _
      _ ≤ 1 := by
          unfold ddgInit
          split <;> simp
  · simp [search_duckduckgo]
  · intro r hr hrel
    have hr' : r ∈ ddgLoop resp.relatedTopics (ddgInit query resp) count :=
      List.mem_of_mem_take hr
    rcases mem_ddgLoop _ _ _ r hr' with hin | ⟨_, hu, hs⟩
    · exfalso
      unfold ddgInit at hin
      by_cases ha : resp.abstractText != ""
      · rw [if_pos ha] at hin
        rcases List.mem_singleton.mp hin with rfl
        simp at hrel
      · rw [if_neg ha] at hin
        simp at hin
    · exact ⟨hu, hs⟩

/-- The `h2` title element of one Bing result item (`li.b_algo`): its
stripped text and its `<a>` child.  `link = none` models no `<a>` child (the
url then defaults to `''`); `link = some none` an `<a>` without an `href`
attribute — the `link_elem['href']` lookup raises KeyError and the inner
`except: continue` (line 141) skips the item; `link = some (some h)` the
href value. -/
structure BingTitleElem where
  text : String
  link : Option (Option String)
deriving DecidableEq, Repr

/-- One parsed Bing result item: optional `h2` element and the stripped text
of its optional `p` description. -/
structure BingItem where
  h2 : Option BingTitleElem
  desc : Option String
deriving DecidableEq, Repr

/-- `url_result = link_elem['href'] if link_elem else ''` under the item's
try/except: `none` means the KeyError path (skip the item). -/
def domHref : Option (Option String) → Option String
  | some none => none
  | none => some ""
  | some (some h) => some h

/-- The result loop of `search_bing` (lines 113-143): break at `count`
records; skip items without an `h2`; keep an item only when title and url
are non-empty and the snippet longer than 20 characters. -/
def bingLoop : List BingItem → List SearchResult → Nat → List SearchResult
  | [], acc, _ => acc
  | it :: rest, acc, count =>
    if count ≤ acc.length then acc
    else
      match it.h2 with
      | none => bingLoop rest acc count
      | some t =>
        match domHref t.link with
        | none => bingLoop rest acc count
        | some url =>
          if t.text != "" && url != "" && 20 < (it.desc.getD "").length then
            bingLoop rest (acc ++ [⟨acc.length + 1, strTake t.text 100, url,
              strTake (it.desc.getD "") 500, "bing", 80, 80⟩]) count
          else bingLoop rest acc count

/-- `search_bing` (lines 97-146) after HTML parsing: input is the parsed
sequence of `li.b_algo` items. -/
def search_bing (items : List BingItem) (count : Nat) : List SearchResult :=
  bingLoop items [] count

/-- One parsed Google result item (`div.g`): stripped text of the optional
`h3`, the optional `<a>` (as for Bing), and the stripped text of the
optional `span.VwiC3b` description. -/
structure GoogleItem where
  h3 : Option String
  link : Option (Option String)
  span : Option String
deriving DecidableEq, Repr

def pyIsHex (c : Char) : Bool :=
  c.isDigit || ('a' ≤ c && c ≤ 'f') || ('A' ≤ c && c ≤ 'F')

def hexVal (c : Char) : Nat :=
  if c.isDigit then c.toNat - 48
  else if 'a' ≤ c then c.toNat - 87
  else c.toNat - 55

/-- `urllib.parse.unquote` at the byte level: `%` followed by two hex digits
decodes to that code value, anything else passes through.  (The real
function additionally UTF-8-decodes runs of escaped bytes ≥ 0x80; nothing
proved here depends on that difference.) -/
def pyUnquoteAux : List Char → List Char
  | [] => []
  | '%' :: a :: b :: rest =>
    if pyIsHex a && pyIsHex b then
      Char.ofNat (16 * hexVal a + hexVal b) :: pyUnquoteAux rest
    else '%' :: pyUnquoteAux (a :: b :: rest)
  | c :: rest => c :: pyUnquoteAux rest

def pyUnquote (s : String) : String := String.mk (pyUnquoteAux s.data)

/-- Lines 183-184: unwrap Google's `/url?q=...` redirect wrapper —
`unquote(url.split('q=')[1].split('&')[0])`.  (The guard guarantees the
split has a second part, so the last match arm is unreachable.) -/
def googleCleanUrl (url : String) : String :=
  if url.startsWith "/url?q=" then
    match url.splitOn "q=" with
    | _ :: p :: _ => pyUnquote ((p.splitOn "&").headD "")
    | _ => url
  else url

/-- The result loop of `search_google` (lines 164-197): break at `count`;
skip items without an `h3`; keep an item when title and (pre-unwrap) url are
non-empty and the snippet longer than 10 characters; unwrap redirect urls. -/
def googleLoop : List GoogleItem → List SearchResult → Nat → List SearchResult
  | [], acc, _ => acc
  | it :: rest, acc, count =>
    if count ≤ acc.length then acc
    else
      match it.h3 with
      | none => googleLoop rest acc count
      | some title =>
        match domHref it.link with
        | none => googleLoop rest acc count
        | some url =>
          if title != "" && url != "" && 10 < (it.span.getD "").length then
            googleLoop rest (acc ++ [⟨acc.length + 1, strTake title 100,
              googleCleanUrl url, strTake (it.span.getD "") 500, "google", 70, 70⟩]) count
          else googleLoop rest acc count

/-- `search_google` (lines 148-201) after HTML parsing. -/
def search_google (items : List GoogleItem) (count : Nat) : List SearchResult :=
  googleLoop items [] count

theorem strTake_ne_empty (s : String) (n : Nat) (hn : 0 < n) (hs : s ≠ "") :
    strTake s n ≠ "" := by
  intro h
  apply hs
  have hd : s.data.take n = [] := congrArg String.data h
  rcases List.take_eq_nil_iff.mp hd with h1 | h1
  · omega
  · rcases s with ⟨ls⟩
    simp only [String.data] at h1
    rw [h1]

theorem append_ne_empty_left (a b : String) (ha : a ≠ "") : a ++ b ≠ "" := by
  rcases a with ⟨la⟩
  rcases b with ⟨lb⟩
  intro h
  apply ha
  have hd : la ++ lb = [] := congrArg String.data h
  rcases List.append_eq_nil.mp hd with ⟨h1, _⟩
  rw [h1]

/-- Scanner for `re.sub('<[^<]+?>', '', snippet)` (line 225), continued: after
the first consumed character, find the first `>`; a `<` on the way makes the
lazy match fail at this start position. Returns the input after the match. -/
def tagEndGo : List Char → Option (List Char)
  | [] => none
  | c :: rest => if c = '>' then some rest else if c = '<' then none else tagEndGo rest

/-- Scanner for `re.sub('<[^<]+?>', '', snippet)`: given the text after a
`<`, the pattern `[^<]+?>` must consume at least one non-`<` character and
then a `>`.  `none` when no tag closes here (the `<` stays literal). -/
def tagEnd : List Char → Option (List Char)
  | [] => none
  | c :: rest => if c = '<' then none else tagEndGo rest

theorem tagEndGo_length : ∀ l r2, tagEndGo l = some r2 → r2.length < l.length := by
  intro l
  induction l with
  | nil => intro r2 h; simp [tagEndGo] at h
  | cons c rest ih =>
    intro r2 h
    simp only [tagEndGo] at h
    by_cases h1 : c = '>'
    · rw [if_pos h1] at h
      cases h
      simp
    · rw [if_neg h1] at h
      by_cases h2 : c = '<'
      · rw [if_pos h2] at h; cases h
      · rw [if_neg h2] at h
        exact Nat.lt_succ_of_lt (ih r2 h)

theorem tagEnd_length : ∀ l r2, tagEnd l = some r2 → r2.length < l.length := by
  intro l r2 h
  cases l with
  | nil => simp [tagEnd] at h
  | cons c rest =>
    simp only [tagEnd] at h
    by_cases h2 : c = '<'
    · rw [if_pos h2] at h; cases h
    · rw [if_neg h2] at h
      exact Nat.lt_succ_of_lt (tagEndGo_length rest r2 h)

/-- `re.sub('<[^<]+?>', '', snippet)` (line 225), scanning left to right: at
each `<`, drop the shortest `<[^<]+?>` match starting there, else keep the
character. -/
def stripTagsAux : List Char → List Char
  | [] => []
  | c :: rest =>
    if c = '<' then
      match htag : tagEnd rest with
      | some rest2 => stripTagsAux rest2
      | none => c :: stripTagsAux rest
    else c :: stripTagsAux rest
termination_by l => l.length
decreasing_by
  · exact Nat.lt_succ_of_lt (tagEnd_length rest rest2 htag)
  · simp
  · simp

def stripTags (s : String) : String := String.mk (stripTagsAux s.data)

def hexDigitU (n : Nat) : Char :=
  if n < 10 then Char.ofNat (48 + n) else Char.ofNat (55 + n)

/-- The UTF-8 bytes of one code point (standard 1-4 byte encoding). -/
def utf8Bytes (c : Char) : List Nat :=
  let n := c.toNat
  if n < 128 then [n]
  else if n < 2048 then [192 + n / 64, 128 + n % 64]
  else if n < 65536 then [224 + n / 4096, 128 + (n / 64) % 64, 128 + n % 64]
  else [240 + n / 262144, 128 + (n / 4096) % 64, 128 + (n / 64) % 64, 128 + n % 64]

/-- One character under `urllib.parse.quote` with its default `safe='/'`:
ASCII letters, digits, `_.-~` and `/` pass through, anything else becomes
uppercase `%XX` escapes of its UTF-8 bytes. -/
def quoteChar (c : Char) : List Char :=
  if c.isAlphanum || c = '_' || c = '.' || c = '-' || c = '~' || c = '/' then [c]
  else List.flatten ((utf8Bytes c).map fun b => ['%', hexDigitU (b / 16), hexDigitU (b % 16)])

/-- `urllib.parse.quote(title)` (line 230). -/
def pyQuote (s : String) : String :=
  String.mk (List.flatten (s.data.map quoteChar))

/-- One hit of the parsed `data['query']['search']` array, with the
`r.get(..., '')` defaults already applied. -/
structure WikiHit where
  title : String
  snippet : String
deriving DecidableEq, Repr

/-- The parsed wikipedia API response: `data.get('query', {}).get('search', [])`. -/
structure WikiResponse where
  search : List WikiHit
deriving DecidableEq, Repr

/-- `search_wikipedia` (lines 203-239) after JSON parsing: keep only the
first hit, strip HTML tags from its snippet, build the article url from the
quoted title. -/
def search_wikipedia (query : String) (resp : WikiResponse) : Option SearchResult :=
  match resp.search with
  | [] => none
  | r :: _ =>
    some ⟨0, r.title, "https://en.wikipedia.org/wiki/" ++ pyQuote r.title,
      strTake (stripTags r.snippet) 500, "wikipedia", 85, 85⟩

set_option maxRecDepth 8192 in
theorem mem_bingLoop (items : List BingItem) :
    ∀ acc count r, r ∈ bingLoop items acc count →
      r ∈ acc ∨ (r.title ≠ "" ∧ r.url ≠ "") := by
  induction items with
  | nil => intro acc count r h; exact Or.inl h
  | cons it rest ih =>
    intro acc count r h
    by_cases hc : count ≤ acc.length
    · simp only [bingLoop] at h
      rw [if_pos hc] at h
      exact Or.inl h
    · simp only [bingLoop] at h
      rw [if_neg hc] at h
      rcases hh2 : it.h2 with _ | t
      · rw [hh2] at h
        exact ih _ _ r h
      · rw [hh2] at h
        dsimp only at h
        rcases hl : domHref t.link with _ | url
        · rw [hl] at h
          exact ih _ _ r h
        · rw [hl] at h
          dsimp only at h
          by_cases hk : (t.text != "" && url != "" && 20 < (it.desc.getD "").length) = true
          · rw [if_pos hk] at h
            rcases ih _ _ r h with hin | hgood
            · rcases List.mem_append.mp hin with hin | hnew
              · exact Or.inl hin
              · rcases List.mem_singleton.mp hnew with rfl
                simp only [Bool.and_eq_true, bne_iff_ne, ne_eq, decide_eq_true_eq] at hk
                obtain ⟨⟨htext, hurl⟩, _⟩ := hk
                exact Or.inr ⟨strTake_ne_empty t.text 100 (by norm_num) htext, hurl⟩
            · exact Or.inr hgood
          · rw [if_neg hk] at h
            exact ih _ _ r h

set_option maxRecDepth 8192 in
theorem mem_googleLoop (items : List GoogleItem) :
    ∀ acc count r, r ∈ googleLoop items acc count → r ∈ acc ∨ r.title ≠ "" := by
  induction items with
  | nil => intro acc count r h; exact Or.inl h
  | cons it rest ih =>
    intro acc count r h
    by_cases hc : count ≤ acc.length
    · simp only [googleLoop] at h
      rw [if_pos hc] at h
      exact Or.inl h
    · simp only [googleLoop] at h
      rw [if_neg hc] at h
      rcases hh3 : it.h3 with _ | title
      · rw [hh3] at h
        exact ih _ _ r h
      · rw [hh3] at h
        dsimp only at h
        rcases hl : domHref it.link with _ | url
        · rw [hl] at h
          exact ih _ _ r h
        · rw [hl] at h
          dsimp only at h
          by_cases hk : (title != "" && url != "" && 10 < (it.span.getD "").length) = true
          · rw [if_pos hk] at h
            rcases ih _ _ r h with hin | hgood
            · rcases List.mem_append.mp hin with hin | hnew
              · exact Or.inl hin
              · rcases List.mem_singleton.mp hnew with rfl
                simp only [Bool.and_eq_true, bne_iff_ne, ne_eq, decide_eq_true_eq] at hk
                obtain ⟨⟨htitle, _⟩, _⟩ := hk
                exact Or.inr (strTake_ne_empty title 100 (by norm_num) htitle)
            · exact Or.inr hgood
          · rw [if_neg hk] at h
            exact ih _ _ r h

/-- C1 (amended): the claimed invariant holds only per adapter and per field:
every bing record has a non-empty title and url; every duckduckgo
related-topic record has a non-empty url; every google record has a
non-empty title; every wikipedia record has a non-empty url.  It fails in
the remaining positions: the duckduckgo abstract record can carry an empty
url (counterexample), the duckduckgo, google and wikipedia records can carry
an empty title, and google's `/url?q=` unwrapping can yield an empty url. -/
theorem C1_adapter_field_guarantees :
    (∀ (items : List BingItem) (count : Nat),
        ∀ r ∈ search_bing items count, r.title ≠ "" ∧ r.url ≠ "") ∧
      (∀ (query : String) (resp : DDGResponse) (count : Nat),
        ∀ r ∈ search_duckduckgo query resp count,
          r.source = "duckduckgo-related" → r.url ≠ "") ∧
      (∀ (items : List GoogleItem) (count : Nat),
        ∀ r ∈ search_google items count, r.title ≠ "") ∧
      (∀ (query : String) (resp : WikiResponse) (r : SearchResult),
        search_wikipedia query resp = some r → r.url ≠ "") := by
  refine ⟨?_, ?_, ?_, ?_⟩
  · intro items count r h
    rcases mem_bingLoop items [] count r h with hin | hgood
    · simp at hin
    · exact hgood
  · intro query resp count r h hrel
    have h' : r ∈ ddgLoop resp.relatedTopics (ddgInit query resp) count :=
      List.mem_of_mem_take h
    rcases mem_ddgLoop _ _ _ r h' with hin | ⟨_, hu, _⟩
    · exfalso
      unfold ddgInit at hin
      by_cases ha : (resp.abstractText != "") = true
      · rw [if_pos ha] at hin
        rcases List.mem_singleton.mp hin with rfl
        simp at hrel
      · rw [if_neg ha] at hin
        simp at hin
    · exact hu
  · intro items count r h
    rcases mem_googleLoop items [] count r h with hin | hgood
    · simp at hin
    · exact hgood
  · intro query resp r h
    unfold search_wikipedia at h
    rcases hs : resp.search with _ | ⟨w, ws⟩
    · rw [hs] at h
      exact absurd h (by simp)
    · rw [hs] at h
      dsimp only at h
      have hr := Option.some.inj h
      rw [← hr]
      exact append_ne_empty_left _ _ (by decide)

/-- A parsed instant-answer response with an abstract but no `AbstractURL`
key. -/
def ddgAbstractOnly : DDGResponse :=
  ⟨"Lean is a theorem prover and programming language.", some "Lean", none, []⟩

/-- C1 counterexample: on a response whose `AbstractText` is non-empty but
whose `AbstractURL` key is absent, `search_duckduckgo` emits the abstract
record with `url = ''` — a record on the merged list with an empty url. -/
theorem C1_counterexample :
    ¬ (∀ r ∈ search_duckduckgo "lean" ddgAbstractOnly 10,
        r.title ≠ "" ∧ r.url ≠ "") := by
  decide

/-- `\s` for `re.sub(r'\s+', ' ', text)` (line 389), ASCII range (the regex
additionally matches a handful of rare Unicode spaces). -/
def pyIsSpace (c : Char) : Bool :=
  c = ' ' || c = '\t' || c = '\n' || c = '\x0b' || c = '\x0c' || c = '\r'

/-- `re.sub(r'\s+', ' ', text)`: every maximal whitespace run becomes a
single space.  The boolean records whether the previous character was part
of a run. -/
def collapseAux : List Char → Bool → List Char
  | [], _ => []
  | c :: rest, prevWs =>
    if pyIsSpace c then
      if prevWs then collapseAux rest true
      else ' ' :: collapseAux rest true
    else c :: collapseAux rest false

def collapseWs (s : String) : String :=
  String.mk (collapseAux s.data false)

/-- The parsed page as the text-extraction branch of `smart_scrape` sees it
(lines 375-391), after script/style/nav/footer removal: each of the five
content selectors is `none` when `select_one` finds no element and `some t`
the matched element's `get_text(separator=' ', strip=True)`; `fullText` is
the same text extraction over the whole document (line 387). -/
structure Html where
  selArticle : Option String
  selMain : Option String
  selRoleMain : Option String
  selContentClass : Option String
  selContentId : Option String
  fullText : String
deriving Repr

/-- The selector probe (lines 377-381): `article`, `main`, `[role="main"]`,
`.content`, `#content` in order; the first match wins. -/
def firstContent (h : Html) : Option String :=
  h.selArticle <|> h.selMain <|> h.selRoleMain <|> h.selContentClass <|> h.selContentId

/-- The two text fields `smart_scrape` writes (lines 390-391). -/
structure ScrapeText where
  text : String
  text_length : Nat
deriving DecidableEq, Repr

/-- The text-population branch of `smart_scrape` (lines 375-391): runs when
the extraction mode is one of smart/text/all; takes the first matching
content selector's text or, as fallback, the whole-document text, collapses
whitespace, truncates to 3000 characters, and stores the truncated text and
its length. -/
def smart_scrape_text (extract_mode : String) (h : Html) : Option ScrapeText :=
  if extract_mode == "smart" || extract_mode == "text" || extract_mode == "all" then
    let raw := (firstContent h).getD h.fullText
    let text := strTake (collapseWs raw) 3000
    some ⟨text, text.length⟩
  else none

theorem length_strTake (s : String) (n : Nat) :
    (strTake s n).length = min n s.length := by
  show (s.data.take n).length = min n s.data.length
  exact List.length_take n s.data

/-- C3 (amended): in a text-populating extraction mode, on a document where
no content selector matches, `smart_scrape` falls back to the whole-document
text, collapses whitespace and truncates the `text` field to the
3000-character cap — but `text_length` is the length of the text AFTER
truncation, `min(pre-truncation length, 3000)`, not the pre-truncation
length. -/
theorem C3_fallback_and_truncation (extract_mode : String) (h : Html)
    (hmode : extract_mode = "smart" ∨ extract_mode = "text" ∨ extract_mode = "all")
    (hsel : firstContent h = none) :
    smart_scrape_text extract_mode h =
      some ⟨strTake (collapseWs h.fullText) 3000,
        min 3000 (collapseWs h.fullText).length⟩ := by
  have hm : (extract_mode == "smart" || extract_mode == "text" ||
      extract_mode == "all") = true := by
    rcases hmode with rfl | rfl | rfl <;> rfl
  unfold smart_scrape_text
  rw [if_pos hm, hsel]
  simp only [Option.getD_none, length_strTake]

/-- A document with no selector match and a short whole-document text. -/
def c3small : Html := ⟨none, none, none, none, none, "hello   world"⟩

theorem C3_witness :
    smart_scrape_text "text" c3small =
      some ⟨strTake (collapseWs c3small.fullText) 3000,
        min 3000 (collapseWs c3small.fullText).length⟩ :=
  C3_fallback_and_truncation "text" c3small (Or.inr (Or.inl rfl)) rfl

/-- A document with no selector match whose whole-document text is 3001
non-whitespace characters. -/
def c3big : Html := ⟨none, none, none, none, none, String.mk (List.replicate 3001 'a')⟩

/-- C3 counterexample: on `c3big` the collapsed pre-truncation text has 3001
characters but the emitted `text_length` is 3000 — the length after
truncation — so `text_length` does not report the pre-truncation length. -/
theorem collapseAux_no_ws (l : List Char) (h : ∀ c ∈ l, pyIsSpace c = false) :
    ∀ b, collapseAux l b = l := by
  induction l with
  | nil => intro b; rfl
  | cons c rest ih =>
    intro b
    have hc := h c (List.mem_cons_self c rest)
    simp only [collapseAux, hc, Bool.false_eq_true, if_false]
    exact congrArg (c :: ·) (ih (fun d hd => h d (List.mem_cons_of_mem c hd)) false)

/-- C3 counterexample: on `c3big` the collapsed pre-truncation text has 3001
characters but the emitted `text_length` is 3000 — the length after
truncation — so `text_length` does not report the pre-truncation length. -/
theorem C3_counterexample :
    ((smart_scrape_text "text" c3big).getD ⟨"", 0⟩).text_length = 3000 ∧
      (collapseWs c3big.fullText).length = 3001 := by
  have hall : ∀ c ∈ List.replicate 3001 'a', pyIsSpace c = false := by
    intro c hc
    rw [List.eq_of_mem_replicate hc]
    rfl
  have hcol : collapseWs c3big.fullText = c3big.fullText := by
    show String.mk (collapseAux (List.replicate 3001 'a') false) = _
    rw [collapseAux_no_ws _ hall false]
    rfl
  have hlen : c3big.fullText.length = 3001 := by
    show (List.replicate 3001 'a').length = 3001
    exact List.length_replicate 3001 'a'
  constructor
  · show (strTake (collapseWs ((firstContent c3big).getD c3big.fullText)) 3000).length = 3000
    rw [show firstContent c3big = none from rfl]
    show (strTake (collapseWs c3big.fullText) 3000).length = 3000
    rw [hcol, length_strTake, hlen]
    omega
  · rw [hcol, hlen]
